import Mathlib

/-
  Shallow embedding of the StudyBot agent core (Python sources under
  src/studybot/): the Field Tracker (services/field_manager.py), the
  Conversation Log (agent/conversation_manager.py), the confirmation
  classifier fallback (agent/confirmation_handler.py), the decision fallback
  (agent/decision_maker.py), the action executor (agent/action_executor.py),
  the mock retrieval service (services/rag_service.py) and the orchestrator's
  confirmation / regular message flows (core/studybot_agent.py).

  Python dictionaries with string keys are embedded as association lists in
  insertion order; Python truthiness of optional strings (None and "" falsy)
  is the `truthy` predicate.  The LLM collaborator is external: its outcome
  (a parsed decision / classification, or a failure) is a parameter of the
  step functions, and the retrieval backend is a parameter of type
  `String → RagResult` (instantiated by the embedded mock for concrete runs).
  Human-readable UI message strings built by the Python code are not part of
  any property below and are omitted from response records.
-/

namespace StudyBot

/-- The field names of FieldManager.FORM_SCHEMA, in order. -/
def schemaNames : List String :=
  ["Client", "Problem", "Discipline", "Technique Area", "Study Director",
   "Study Director Site", "Priority", "Date Results Required", "Sample Type",
   "Sample ID", "Project Code", "Special Instructions"]

/-- Python truthiness of an optional string: `None` and `""` are falsy. -/
def truthy : Option String → Bool
  | none => false
  | some s => s ≠ ""

/-- Membership test of key `k` in an association list (Python `k in dict`). -/
def hasKey (fields : List (String × Option String)) (k : String) : Bool :=
  fields.any (fun p => p.1 == k)

/-- Overwrite the value stored at key `k` (Python `dict[k] = v` for a present
key: the key set and insertion order are unchanged). -/
def setKey (fields : List (String × Option String)) (k : String) (v : Option String) :
    List (String × Option String) :=
  fields.map (fun p => if p.1 == k then (p.1, v) else p)

/-- Lookup of key `k` (Python `dict.get(k)`, `None` when absent). -/
def lookupVal (fields : List (String × Option String)) (k : String) : Option String :=
  match fields.find? (fun p => p.1 == k) with
  | some p => p.2
  | none => none

/-- services/field_manager.py FieldManager: the mutable mapping
field name → optional value. -/
structure FieldManager where
  fields : List (String × Option String)
deriving DecidableEq

/-- FieldManager.__init__: every schema field name mapped to None. -/
def FieldManager.init : FieldManager :=
  ⟨schemaNames.map (fun n => (n, none))⟩

/-- Overwrite, in order, the value of every data pair whose key is already
present; pairs with an unknown key are skipped.  This is the common fields
effect of FieldManager.update_fields and FieldManager.from_dict. -/
def applyPairs (fields data : List (String × Option String)) :
    List (String × Option String) :=
  data.foldl
    (fun fs kv => if hasKey fs kv.1 then setKey fs kv.1 kv.2 else fs)
    fields

/-- The fields-only effect of FieldManager.update_fields. -/
def applyUpdates (fields : List (String × Option String))
    (updates : List (String × String)) : List (String × Option String) :=
  applyPairs fields (updates.map (fun kv => (kv.1, some kv.2)))

/-- FieldManager.update_fields: apply the updates whose key is a schema key
and return the new state together with the subset actually applied. -/
def FieldManager.update_fields (fm : FieldManager) (updates : List (String × String)) :
    FieldManager × List (String × String) :=
  updates.foldl
    (fun acc kv =>
      if hasKey acc.1.fields kv.1 then
        (⟨setKey acc.1.fields kv.1 (some kv.2)⟩, acc.2 ++ [kv])
      else acc)
    (fm, [])

/-- FieldManager.get_field: `self.fields.get(field_name)`. -/
def FieldManager.get_field (fm : FieldManager) (k : String) : Option String :=
  lookupVal fm.fields k

/-- FieldManager.get_filled_fields: the pairs whose value is truthy. -/
def FieldManager.get_filled_fields (fm : FieldManager) : List (String × String) :=
  fm.fields.filterMap (fun p =>
    match p.2 with
    | some v => if v = "" then none else some (p.1, v)
    | none => none)

/-- FieldManager.get_empty_fields: names of entries with a falsy value. -/
def FieldManager.get_empty_fields (fm : FieldManager) : List String :=
  (fm.fields.filter (fun p => !truthy p.2)).map (fun p => p.1)

/-- Number of entries holding a truthy value. -/
def FieldManager.filledCount (fm : FieldManager) : Nat :=
  (fm.fields.filter (fun p => truthy p.2)).length

/-- FieldManager.calculate_progress: `round((filled / total) * 100, 1)`,
i.e. the multiple of 1/10 nearest to `filled * 100 / total`. -/
def FieldManager.calculate_progress (fm : FieldManager) : ℚ :=
  (round ((fm.filledCount * 1000 : ℚ) / fm.fields.length) : ℤ) / 10

/-- FieldManager.is_complete: `all(self.fields.values())`. -/
def FieldManager.is_complete (fm : FieldManager) : Bool :=
  fm.fields.all (fun p => truthy p.2)

/-- FieldManager.to_dict: a copy of the mapping. -/
def FieldManager.to_dict (fm : FieldManager) : List (String × Option String) :=
  fm.fields

/-- FieldManager.from_dict: for each entry of the data whose key is already
present, overwrite its value; unknown keys are dropped. -/
def FieldManager.from_dict (fm : FieldManager) (data : List (String × Option String)) :
    FieldManager :=
  ⟨applyPairs fm.fields data⟩

/-- A well-formed Field Tracker: its key list is exactly the schema. -/
def FieldManager.WF (fm : FieldManager) : Prop :=
  fm.fields.map (fun p => p.1) = schemaNames

/-- One entry of the Conversation Log (role, text, timestamp, action tag).
The timestamp string is an input of `add_message` here, standing for
`datetime.now().isoformat()`. -/
structure ConvEntry where
  role : String
  content : String
  timestamp : String
  action : Option String
deriving DecidableEq

/-- The Python slice `l[-n:]` for a non-negative `n`: the last `n` elements,
except that `l[-0:]` is the whole list (`-0 == 0` in Python). -/
def pySliceLast (n : Nat) (l : List α) : List α :=
  if n = 0 then l else l.drop (l.length - n)

/-- agent/conversation_manager.py ConversationManager. -/
structure ConversationManager where
  history : List ConvEntry
  max_history : Nat
deriving DecidableEq

/-- ConversationManager.__init__ with the given cap (default 50). -/
def ConversationManager.init (max_history : Nat := 50) : ConversationManager :=
  ⟨[], max_history⟩

/-- ConversationManager.add_message: append, then trim to
`history[-max_history:]` when the length exceeds the cap. -/
def ConversationManager.add_message (cm : ConversationManager)
    (role content timestamp : String) (action : Option String := none) :
    ConversationManager :=
  let h := cm.history ++ [⟨role, content, timestamp, action⟩]
  if h.length > cm.max_history then ⟨pySliceLast cm.max_history h, cm.max_history⟩
  else ⟨h, cm.max_history⟩

/-- ConversationManager.to_dict: a copy of the history. -/
def ConversationManager.to_dict (cm : ConversationManager) : List ConvEntry :=
  cm.history

/-- ConversationManager.from_dict: `self.history = history[-self.max_history:]`. -/
def ConversationManager.from_dict (cm : ConversationManager) (h : List ConvEntry) :
    ConversationManager :=
  ⟨pySliceLast cm.max_history h, cm.max_history⟩

/-- A sequence of `add_message` calls, in order. -/
def ConversationManager.addAll (cm : ConversationManager) (msgs : List ConvEntry) :
    ConversationManager :=
  msgs.foldl (fun c e => c.add_message e.role e.content e.timestamp e.action) cm

/-- Is `sub` a contiguous sublist of `l`?  (Python `sub in s` on strings.) -/
def listHasInfix (l sub : List Char) : Bool :=
  (List.range (l.length + 1)).any (fun i => (l.drop i).take sub.length == sub)

/-- Python `sub in s` substring containment. -/
def strIn (sub s : String) : Bool :=
  listHasInfix s.toList sub.toList

/-- ASCII lowercase of one character (Python str.lower; every keyword the
code compares against is ASCII). -/
def lowerChar (c : Char) : Char :=
  if 65 ≤ c.toNat ∧ c.toNat ≤ 90 then Char.ofNat (c.toNat + 32) else c

/-- Python str.lower() over the character list. -/
def lowerList (l : List Char) : List Char := l.map lowerChar

/-- ASCII whitespace (Python str.strip default separators). -/
def isSpaceChar (c : Char) : Bool :=
  c = ' ' ∨ c = '\t' ∨ c = '\n' ∨ c = '\r'

/-- Python str.strip() over the character list. -/
def stripList (l : List Char) : List Char :=
  ((l.dropWhile isSpaceChar).reverse.dropWhile isSpaceChar).reverse

/-- models/decisions.py ConfirmationDetection. -/
structure ConfirmationDetection where
  is_confirmation : Bool
  is_rejection : Bool
  is_modification_request : Bool
  confidence : ℚ
  reasoning : String
  extracted_modifications : Option (List (String × String)) := none
deriving DecidableEq

/-- Affirmative keyword set of ConfirmationHandler._fallback_detection. -/
def affirmWords : List String :=
  ["ok", "yes", "yeah", "sure", "looks good", "apply", "correct"]

/-- Negative keyword set of ConfirmationHandler._fallback_detection. -/
def negWords : List String :=
  ["no", "nope", "wrong", "incorrect", "don\x27t", "cancel"]

/-- ConfirmationHandler._fallback_detection: rule-based keyword matching on
the lowercased, stripped message; fixed confidence 0.7. -/
def fallback_detection (message : String) : ConfirmationDetection :=
  let msgLower := stripList (lowerList message.toList)
  { is_confirmation := affirmWords.any (fun w => listHasInfix msgLower w.toList)
    is_rejection := negWords.any (fun w => listHasInfix msgLower w.toList)
    is_modification_request := false
    confidence := mkRat 7 10
    reasoning := "Fallback rule-based detection"
    extracted_modifications := none }

/-- models/action_types.py ActionType. -/
inductive ActionType where
  | suggest_fields
  | update_field
  | search_rag
  | apply_suggestions
  | submit_form
  | clarify
  | generic_response
deriving DecidableEq

/-- The string value of each ActionType enum member. -/
def ActionType.value : ActionType → String
  | suggest_fields => "suggest_fields"
  | update_field => "update_field"
  | search_rag => "search_rag"
  | apply_suggestions => "apply_suggestions"
  | submit_form => "submit_form"
  | clarify => "clarify"
  | generic_response => "generic_response"

/-- models/decisions.py AgentDecision (LLM decision output). -/
structure AgentDecision where
  action : ActionType
  reasoning : String := ""
  field_name : Option String := none
  field_value : Option String := none
  search_query : Option String := none
  suggested_fields : Option (List (String × String)) := none
  message_to_user : String := ""
  requires_user_input : Bool := false
  confidence : ℚ := mkRat 8 10
deriving DecidableEq

/-- DecisionMaker._fallback_decision: the deterministic decision returned
when the LLM call fails. -/
def fallback_decision : AgentDecision :=
  { action := ActionType.clarify
    reasoning := "Error processing request"
    message_to_user := "I\x27m having trouble understanding. Could you rephrase that?"
    requires_user_input := true
    confidence := mkRat 3 10 }

/-- DecisionMaker.decide_action, with the try-block outcome (the LLM call,
JSON extraction and AgentDecision validation, all external) as a parameter:
a successfully parsed decision passes through, any exception falls back. -/
def decide_action (message : String) (agentStateTag : String)
    (outcome : Except String AgentDecision) : AgentDecision :=
  match message, agentStateTag, outcome with
  | _, _, Except.ok d => d
  | _, _, Except.error _ => fallback_decision

/-- Result of RAGService.search (services/rag_service.py). -/
structure RagResult where
  found_fields : List (String × String)
  num_results : Nat
  similar_studies : List String := []
deriving DecidableEq

/-- RAGService._get_keywords. -/
def ragKeywords (scenario : String) : List String :=
  if scenario = "degradation" then
    ["yellow", "degrad", "weather", "uv", "outdoor", "color"]
  else if scenario = "gpc" then ["gpc", "molecular weight", "mw", "polymer"]
  else if scenario = "thermal" then
    ["dsc", "thermal", "melting", "crystallin", "temperature"]
  else if scenario = "ftir" then
    ["ftir", "infrared", "spectroscop", "functional group"]
  else if scenario = "nmr" then ["nmr", "nuclear magnetic", "structure"]
  else if scenario = "formulation" then
    ["formulation", "composition", "blend", "additive"]
  else []

/-- RAGService._scenario_degradation. -/
def scenarioDegradation : RagResult :=
  { found_fields :=
      [("Discipline", "Material Science"),
       ("Technique Area", "UV-Vis Spectroscopy"),
       ("Study Director", "Dr. Sarah Martinez"),
       ("Study Director Site", "Midland"),
       ("Sample Type", "Polymer"),
       ("Special Instructions", "Test under accelerated UV exposure conditions")]
    num_results := 4
    similar_studies :=
      ["Study #12890: Polymer degradation analysis under UV exposure - PE resins",
       "Study #12923: Yellowing investigation in polyethylene films",
       "Study #13001: Outdoor weathering effects on DOWLEX resins",
       "Study #13045: Color stability testing for Arizona climate exposure"] }

/-- RAGService._scenario_gpc. -/
def scenarioGpc : RagResult :=
  { found_fields :=
      [("Discipline", "Separations"),
       ("Technique Area", "GPC"),
       ("Study Director", "Dr. Emily Carter"),
       ("Study Director Site", "Freeport"),
       ("Sample Type", "Polymer"),
       ("Special Instructions", "Use THF as solvent, measure at 40°C")]
    num_results := 3
    similar_studies :=
      ["Study #12345: Molecular weight distribution analysis for polyethylene",
       "Study #12389: GPC analysis for similar HDPE material",
       "Study #12567: MW characterization of branched polymers"] }

/-- RAGService._scenario_thermal. -/
def scenarioThermal : RagResult :=
  { found_fields :=
      [("Discipline", "Material Science"),
       ("Technique Area", "DSC"),
       ("Study Director", "Dr. Robert Chen"),
       ("Study Director Site", "Midland"),
       ("Sample Type", "Polymer"),
       ("Special Instructions", "Run from -50°C to 200°C at 10°C/min")]
    num_results := 5
    similar_studies :=
      ["Study #13201: DSC analysis of polyethylene crystallinity",
       "Study #13245: Thermal properties of LLDPE resins",
       "Study #13289: Melting behavior characterization",
       "Study #13334: Glass transition temperature determination",
       "Study #13401: Thermal stability assessment"] }

/-- RAGService._scenario_ftir. -/
def scenarioFtir : RagResult :=
  { found_fields :=
      [("Discipline", "Material Science"),
       ("Technique Area", "FTIR"),
       ("Study Director", "Dr. Lisa Anderson"),
       ("Study Director Site", "Pittsburg"),
       ("Sample Type", "Coating"),
       ("Special Instructions", "ATR mode, 4000-600 cm⁻¹ range")]
    num_results := 3
    similar_studies :=
      ["Study #13501: FTIR identification of functional groups in coatings",
       "Study #13567: Infrared spectroscopy for quality control",
       "Study #13623: Chemical composition analysis via FTIR"] }

/-- RAGService._scenario_nmr. -/
def scenarioNmr : RagResult :=
  { found_fields :=
      [("Discipline", "Material Science"),
       ("Technique Area", "NMR"),
       ("Study Director", "Dr. Michael Zhang"),
       ("Study Director Site", "Freeport"),
       ("Sample Type", "Polymer"),
       ("Special Instructions", "1H and 13C NMR in CDCl3")]
    num_results := 2
    similar_studies :=
      ["Study #13701: NMR structural characterization of polymers",
       "Study #13789: Branch content determination via NMR"] }

/-- RAGService._scenario_formulation. -/
def scenarioFormulation : RagResult :=
  { found_fields :=
      [("Discipline", "Formulation Science"),
       ("Technique Area", "HPLC"),
       ("Study Director", "Dr. Amanda Foster"),
       ("Study Director Site", "Midland"),
       ("Sample Type", "Adhesive"),
       ("Special Instructions", "Quantify additive concentrations")]
    num_results := 4
    similar_studies :=
      ["Study #13901: Additive analysis in polymer formulations",
       "Study #13956: Composition characterization of blends",
       "Study #14002: HPLC method for stabilizer quantification",
       "Study #14078: Formulation reverse engineering"] }

/-- RAGService._scenario_generic. -/
def scenarioGeneric : RagResult :=
  { found_fields :=
      [("Discipline", "Material Science"),
       ("Technique Area", "Multiple Techniques"),
       ("Study Director", "Dr. Jennifer Williams"),
       ("Study Director Site", "Midland"),
       ("Sample Type", "Unknown")]
    num_results := 2
    similar_studies :=
      ["Study #14123: General material characterization",
       "Study #14189: Multi-technique analysis approach"] }

/-- Scenario dispatch order of RAGService._mock_search. -/
def scenarioOrder : List (String × RagResult) :=
  [("degradation", scenarioDegradation), ("gpc", scenarioGpc),
   ("thermal", scenarioThermal), ("ftir", scenarioFtir),
   ("nmr", scenarioNmr), ("formulation", scenarioFormulation)]

/-- RAGService._mock_search: first scenario one of whose keywords occurs in
the lowercased query; generic fallback otherwise. -/
def mockSearch (query : String) : RagResult :=
  let queryLower := lowerList query.toList
  match scenarioOrder.find?
      (fun s => (ragKeywords s.1).any (fun w => listHasInfix queryLower w.toList)) with
  | some s => s.2
  | none => scenarioGeneric

/-- RAGService.search with a real (non-None) rag_client: the stubbed real
implementation returns no fields and zero results. -/
def stubSearch : String → RagResult := fun _ => ⟨[], 0, []⟩

/-- Python `a or b` on an optional string `a`: `b` when `a` is falsy. -/
def pyOrStr (v : Option String) (d : String) : String :=
  match v with
  | some s => if s = "" then d else s
  | none => d

/-- The orchestrator-owned session fields of core/studybot_agent.py
(`self.session`); the identifier, creation timestamp and the serialized
`fields` / `conversation_history` copies written at checkpoint time are not
part of any property below. -/
structure Session where
  pending_suggestions : Option (List (String × String))
  awaiting_confirmation : Bool
  rag_search_performed : Bool
  initial_extraction_done : Bool
  progress_pct : ℚ
  last_action : Option String
deriving DecidableEq

/-- The fresh session state built in StudyBotAgent.__init__. -/
def Session.init : Session :=
  { pending_suggestions := none
    awaiting_confirmation := false
    rag_search_performed := false
    initial_extraction_done := false
    progress_pct := 0
    last_action := none }

/-- The per-session mutable aggregate driven by the orchestrator: session
flags plus the Field Tracker. -/
structure AgentSt where
  session : Session
  fm : FieldManager
deriving DecidableEq

/-- The initial per-session state: fresh flags, all fields unset. -/
def AgentSt.init : AgentSt :=
  ⟨Session.init, FieldManager.init⟩

/-- A turn response (the dictionary returned by the handlers); the
human-readable `message` strings are omitted, they carry no state. -/
structure Response where
  rtype : String
  suggestions : Option (List (String × String)) := none
  ticket_id : Option String := none
  ticket_data : Option (List (String × String)) := none
  progress_pct : Option ℚ := none
deriving DecidableEq

/-- StudyBotAgent._auto_trigger_rag: search with the Problem field (or the
fixed fallback query), and when results carry fields, stage the ones not
already filled as new pending suggestions, re-arming
`awaiting_confirmation` and marking `rag_search_performed`. -/
def autoTriggerRag (st : AgentSt) (search : String → RagResult) : AgentSt :=
  let results := search (pyOrStr (st.fm.get_field "Problem") "study request")
  if results.num_results > 0 ∧ results.found_fields ≠ [] then
    let newSuggestions :=
      results.found_fields.filter (fun kv => !truthy (st.fm.get_field kv.1))
    if newSuggestions ≠ [] then
      { st with
          session :=
            { st.session with
                pending_suggestions := some newSuggestions
                awaiting_confirmation := true
                rag_search_performed := true } }
    else st
  else st

/-- Does `_handle_confirmation_flow` reach the `_auto_trigger_rag` call
(i.e. perform the auto-triggered retrieval search) on this turn? -/
def confirmApplies (det : ConfirmationDetection) : Prop :=
  det.is_confirmation = true ∧ det.confidence > mkRat 6 10

instance (det : ConfirmationDetection) : Decidable (confirmApplies det) := by
  unfold confirmApplies; infer_instance

/-- StudyBotAgent._handle_confirmation_flow.  `det` is the classifier's
output (the external LLM path or `fallback_detection`), `search` the
retrieval backend.  The returned Bool records whether the auto-triggered
retrieval search fired on this turn. -/
def handleConfirmationFlow (st : AgentSt) (det : ConfirmationDetection)
    (search : String → RagResult) : AgentSt × Response × Bool :=
  if confirmApplies det then
    let fm1 := (st.fm.update_fields (st.session.pending_suggestions.getD [])).1
    let s1 :=
      { st.session with
          awaiting_confirmation := false
          pending_suggestions := none
          progress_pct := fm1.calculate_progress }
    let st1 : AgentSt := ⟨s1, fm1⟩
    let fire := ¬ s1.rag_search_performed ∧ ¬ fm1.is_complete
    let st2 := if fire then autoTriggerRag st1 search else st1
    (st2, { rtype := "apply_suggestions", progress_pct := some s1.progress_pct },
      decide fire)
  else if det.is_modification_request ∧ det.extracted_modifications.getD [] ≠ [] then
    let fm1 := (st.fm.update_fields (det.extracted_modifications.getD [])).1
    let s1 :=
      { st.session with
          awaiting_confirmation := false
          pending_suggestions := none
          progress_pct := fm1.calculate_progress }
    (⟨s1, fm1⟩, { rtype := "modification", progress_pct := some s1.progress_pct },
      false)
  else if det.is_rejection then
    let s1 :=
      { st.session with
          awaiting_confirmation := false
          pending_suggestions := none }
    (⟨s1, st.fm⟩, { rtype := "rejection" }, false)
  else
    (st, { rtype := "unclear_confirmation" }, false)

/-- ActionExecutor._execute_submit_form: refuse unless complete; on success
build the ticket identifier from the fixed prefix and the formatted
timestamp, with the filled fields as payload. -/
def executeSubmitForm (fm : FieldManager) (timestampStr : String) : Response :=
  if ¬ fm.is_complete then { rtype := "incomplete" }
  else
    { rtype := "submitted"
      ticket_id := some ("STUDY-" ++ timestampStr)
      ticket_data := some fm.get_filled_fields }

/-- ActionExecutor.execute: dispatch on the decision's action.  `search` is
the retrieval backend (used by SEARCH_RAG), `timestampStr` the formatted
current time (used by SUBMIT_FORM).  Returns the possibly mutated Field
Tracker together with the response. -/
def executeAction (fm : FieldManager) (dec : AgentDecision)
    (search : String → RagResult) (timestampStr : String) :
    FieldManager × Response :=
  match dec.action with
  | ActionType.suggest_fields =>
    if dec.suggested_fields.getD [] = [] then (fm, { rtype := "error" })
    else
      (fm, { rtype := "suggestion_pending", suggestions := dec.suggested_fields })
  | ActionType.update_field =>
    if truthy dec.field_name ∧ truthy dec.field_value then
      let fm1 :=
        (fm.update_fields [(dec.field_name.getD "", dec.field_value.getD "")]).1
      (fm1, { rtype := "field_updated" })
    else (fm, { rtype := "error" })
  | ActionType.search_rag =>
    let results := search (dec.search_query.getD "")
    if results.num_results > 0 ∧ results.found_fields ≠ [] then
      (fm, { rtype := "suggestion_pending", suggestions := some results.found_fields })
    else (fm, { rtype := "no_results" })
  | ActionType.submit_form => (fm, executeSubmitForm fm timestampStr)
  | ActionType.clarify => (fm, { rtype := "clarify" })
  | ActionType.generic_response => (fm, { rtype := "generic_response" })
  | ActionType.apply_suggestions => (fm, { rtype := "error" })

/-- StudyBotAgent._handle_regular_flow with the decision (the external LLM
outcome, or the fallback) as a parameter: record `last_action`, execute the
action, and stage extracted suggestions for confirmation. -/
def handleRegularFlow (st : AgentSt) (dec : AgentDecision)
    (search : String → RagResult) (timestampStr : String) :
    AgentSt × Response × Bool :=
  let s0 := { st.session with last_action := some dec.action.value }
  let (fm1, resp) := executeAction st.fm dec search timestampStr
  let s1 :=
    if dec.action = ActionType.suggest_fields ∧ dec.suggested_fields.getD [] ≠ [] then
      { s0 with
          pending_suggestions := dec.suggested_fields
          awaiting_confirmation := true
          initial_extraction_done := true }
    else s0
  (⟨s1, fm1⟩, resp, false)

/-- The per-turn external inputs of one handled message: the confirmation
classifier's output (used only while awaiting confirmation), the decision
(used otherwise), the retrieval backend's behaviour and the formatted
timestamp of the turn. -/
structure TurnInput where
  det : ConfirmationDetection
  dec : AgentDecision
  search : String → RagResult
  timestampStr : String

/-- StudyBotAgent.handle_message restricted to the session flags and the
Field Tracker (the Conversation Log append and the checkpoint write touch
neither).  The Bool records whether the auto-triggered retrieval search of
`_handle_confirmation_flow` fired on this turn. -/
def handleMessage (st : AgentSt) (inp : TurnInput) : AgentSt × Response × Bool :=
  if st.session.awaiting_confirmation then
    handleConfirmationFlow st inp.det inp.search
  else
    handleRegularFlow st inp.dec inp.search inp.timestampStr

/-- Run a sequence of turns, counting the auto-triggered retrieval searches
that fired. -/
def runTrace (st : AgentSt) : List TurnInput → AgentSt × Nat
  | [] => (st, 0)
  | inp :: rest =>
    let r := handleMessage st inp
    let rec2 := runTrace r.1 rest
    (rec2.1, (if r.2.2 then 1 else 0) + rec2.2)

/-- Did the auto-triggered search of this turn return new suggestions (the
branch of `_auto_trigger_rag` that sets `rag_search_performed`)? -/
def turnAutoProductive (st : AgentSt) (inp : TurnInput) : Bool :=
  (handleMessage st inp).2.2 &&
    ((handleMessage st inp).1.session.rag_search_performed &&
      !st.session.rag_search_performed)

/-- Run a sequence of turns, counting the auto-triggered retrieval searches
that returned new suggestions. -/
def runTraceProductive (st : AgentSt) : List TurnInput → AgentSt × Nat
  | [] => (st, 0)
  | inp :: rest =>
    let st1 := (handleMessage st inp).1
    let rec2 := runTraceProductive st1 rest
    (rec2.1, (if turnAutoProductive st inp then 1 else 0) + rec2.2)

/-- FieldManager.reset: all fields back to None. -/
def FieldManager.reset (_fm : FieldManager) : FieldManager :=
  FieldManager.init

/-- ConversationManager.clear: empty history, same cap. -/
def ConversationManager.clear (cm : ConversationManager) : ConversationManager :=
  ⟨[], cm.max_history⟩

/-- The spec's progress formula, stated from the spec words: 100 times the
number of filled schema keys divided by N (the schema size), rounded to one
decimal place. -/
def progressSpec (fm : FieldManager) : ℚ :=
  (round ((100 * fm.filledCount / schemaNames.length : ℚ) * 10) : ℤ) / 10

/-- The Field Tracker states reachable through the operations the repository
performs on a FieldManager: construction, update_fields, from_dict, reset. -/
inductive FMReach : FieldManager → Prop where
  | init : FMReach FieldManager.init
  | update (fm : FieldManager) (U : List (String × String)) :
      FMReach fm → FMReach (fm.update_fields U).1
  | fromDict (fm : FieldManager) (d : List (String × Option String)) :
      FMReach fm → FMReach (fm.from_dict d)
  | reset (fm : FieldManager) : FMReach fm → FMReach fm.reset

/-- The Conversation Log states reachable through the operations the
repository performs on a ConversationManager: construction with some cap,
appends, snapshot restore, clear. -/
inductive CMReach : ConversationManager → Prop where
  | init (max_history : Nat) : CMReach (ConversationManager.init max_history)
  | add (cm : ConversationManager) (r c t : String) (a : Option String) :
      CMReach cm → CMReach (cm.add_message r c t a)
  | fromDict (cm : ConversationManager) (h : List ConvEntry) :
      CMReach cm → CMReach (cm.from_dict h)
  | clear (cm : ConversationManager) : CMReach cm → CMReach cm.clear

/-- A session awaiting confirmation of the suggestions
`{"Client": "Acme", "Bogus": "x"}` in an otherwise fresh session. -/
def cexSession : Session :=
  { pending_suggestions := some [("Client", "Acme"), ("Bogus", "x")]
    awaiting_confirmation := true
    rag_search_performed := false
    initial_extraction_done := false
    progress_pct := 0
    last_action := none }

/-- The aggregate state for `cexSession` over an empty Field Tracker. -/
def cexState : AgentSt := ⟨cexSession, FieldManager.init⟩

/-- The turn input of a user message "yes" whose classification comes from
the rule-based fallback, with the default mock retrieval backend. -/
def cexTurnYes : TurnInput :=
  ⟨fallback_detection "yes", { action := ActionType.clarify }, mockSearch,
    "20250101-000000"⟩

/-- A turn whose decision extracts the fields `l` (a SUGGEST_FIELDS turn),
with the stubbed real retrieval client. -/
def cexSuggestTurn (l : List (String × String)) : TurnInput :=
  ⟨fallback_detection "", { action := ActionType.suggest_fields, suggested_fields := some l },
    stubSearch, "t"⟩

/-- A "yes" confirmation turn with the stubbed real retrieval client (its
search returns zero results). -/
def cexYesStubTurn : TurnInput :=
  ⟨fallback_detection "yes", { action := ActionType.clarify }, stubSearch, "t"⟩

/-- Extract Client, confirm, extract Priority, confirm: two confirmation
cycles that each leave the form incomplete. -/
def cexTrace : List TurnInput :=
  [cexSuggestTurn [("Client", "Acme")], cexYesStubTurn,
   cexSuggestTurn [("Priority", "High")], cexYesStubTurn]

/-- A session awaiting confirmation of `{"Client": "Acme"}` in which the
auto-triggered retrieval has already run. -/
def witSession : Session :=
  { pending_suggestions := some [("Client", "Acme")]
    awaiting_confirmation := true
    rag_search_performed := true
    initial_extraction_done := true
    progress_pct := 0
    last_action := none }

/-- The aggregate state for `witSession` over an empty Field Tracker. -/
def witState : AgentSt := ⟨witSession, FieldManager.init⟩

/-- A SUBMIT_FORM decision with no payload. -/
def submitDecision : AgentDecision := { action := ActionType.submit_form }

/-- A fully filled Field Tracker (every schema field holds "v"). -/
def fullFM : FieldManager := ⟨schemaNames.map (fun n => (n, some "v"))⟩

/-! Association-list lemmas for the Field Tracker. -/

theorem map_fst_setKey (l : List (String × Option String)) (k : String)
    (v : Option String) :
    (setKey l k v).map (fun p => p.1) = l.map (fun p => p.1) := by
  induction l with
  | nil => rfl
  | cons p t ih =>
    simp only [setKey, List.map_cons] at *
    split <;> simp_all

theorem hasKey_cons (p : String × Option String) (t : List (String × Option String))
    (k : String) :
    hasKey (p :: t) k = if p.1 = k then true else hasKey t k := by
  by_cases h : p.1 = k <;> simp [hasKey, h]

theorem lookupVal_cons (p : String × Option String) (t : List (String × Option String))
    (k : String) :
    lookupVal (p :: t) k = if p.1 = k then p.2 else lookupVal t k := by
  by_cases h : p.1 = k <;> simp [lookupVal, List.find?_cons, h]

theorem setKey_cons (p : String × Option String) (t : List (String × Option String))
    (k : String) (v : Option String) :
    setKey (p :: t) k v = (if p.1 = k then (p.1, v) else p) :: setKey t k v := by
  by_cases h : p.1 = k <;> simp [setKey, h]

theorem hasKey_congr {l l' : List (String × Option String)}
    (h : l.map (fun p => p.1) = l'.map (fun p => p.1)) (k : String) :
    hasKey l k = hasKey l' k := by
  induction l generalizing l' with
  | nil =>
    cases l' with
    | nil => rfl
    | cons q t' => simp at h
  | cons p t ih =>
    cases l' with
    | nil => simp at h
    | cons q t' =>
      simp only [List.map_cons, List.cons.injEq] at h
      rw [hasKey_cons, hasKey_cons, h.1, ih h.2]

theorem hasKey_iff_mem_fst (l : List (String × Option String)) (k : String) :
    hasKey l k = true ↔ k ∈ l.map (fun p => p.1) := by
  induction l with
  | nil => simp [hasKey]
  | cons p t ih =>
    rw [hasKey_cons]
    by_cases h : p.1 = k
    · simp [h]
    · have hne : ¬ (k = p.1) := fun e => h e.symm
      simp [h, hne, ih]

theorem setKey_of_hasKey_eq_false {l : List (String × Option String)} {k : String}
    (h : hasKey l k = false) (v : Option String) : setKey l k v = l := by
  induction l with
  | nil => rfl
  | cons p t ih =>
    rw [hasKey_cons] at h
    by_cases hp : p.1 = k
    · simp [hp] at h
    · rw [setKey_cons, if_neg hp, ih (by simpa [hp] using h)]

theorem lookupVal_setKey_self {l : List (String × Option String)} {k : String}
    (h : hasKey l k = true) (v : Option String) :
    lookupVal (setKey l k v) k = v := by
  induction l with
  | nil => simp [hasKey] at h
  | cons p t ih =>
    rw [setKey_cons]
    by_cases hp : p.1 = k
    · rw [if_pos hp, lookupVal_cons, if_pos hp]
    · rw [hasKey_cons, if_neg hp] at h
      rw [if_neg hp, lookupVal_cons, if_neg hp, ih h]

theorem lookupVal_setKey_ne {l : List (String × Option String)} {k k' : String}
    (h : k' ≠ k) (v : Option String) :
    lookupVal (setKey l k v) k' = lookupVal l k' := by
  induction l with
  | nil => rfl
  | cons p t ih =>
    rw [setKey_cons, lookupVal_cons p t k']
    by_cases hp : p.1 = k
    · have hne : ¬ (p.1 = k') := fun e => h (e ▸ hp ▸ rfl)
      rw [if_pos hp, lookupVal_cons, if_neg (by simpa [hp] using fun e => h e.symm)]
      rw [if_neg hne, ih]
    · rw [if_neg hp, lookupVal_cons]
      by_cases hq : p.1 = k'
      · rw [if_pos hq, if_pos hq]
      · rw [if_neg hq, if_neg hq, ih]

theorem lookupVal_of_not_mem_fst {l : List (String × Option String)} {k : String}
    (h : k ∉ l.map (fun p => p.1)) : lookupVal l k = none := by
  induction l with
  | nil => rfl
  | cons p t ih =>
    simp only [List.map_cons, List.mem_cons, not_or] at h
    rw [lookupVal_cons, if_neg (fun e => h.1 e.symm), ih h.2]

theorem applyPairs_nil (fs : List (String × Option String)) :
    applyPairs fs [] = fs := rfl

theorem applyPairs_cons (fs : List (String × Option String))
    (kv : String × Option String) (rest : List (String × Option String)) :
    applyPairs fs (kv :: rest) =
      applyPairs (if hasKey fs kv.1 then setKey fs kv.1 kv.2 else fs) rest := rfl

theorem map_fst_applyPairs (fs d : List (String × Option String)) :
    (applyPairs fs d).map (fun p => p.1) = fs.map (fun p => p.1) := by
  induction d generalizing fs with
  | nil => rfl
  | cons kv rest ih =>
    rw [applyPairs_cons]
    by_cases h : hasKey fs kv.1 = true
    · rw [if_pos h, ih, map_fst_setKey]
    · rw [if_neg h, ih]

theorem hasKey_applyPairs (fs d : List (String × Option String)) (k : String) :
    hasKey (applyPairs fs d) k = hasKey fs k :=
  hasKey_congr (map_fst_applyPairs fs d) k

theorem lookupVal_applyPairs_not_mem {fs d : List (String × Option String)}
    {k : String} (h : k ∉ d.map (fun p => p.1)) :
    lookupVal (applyPairs fs d) k = lookupVal fs k := by
  induction d generalizing fs with
  | nil => rfl
  | cons kv rest ih =>
    simp only [List.map_cons, List.mem_cons, not_or] at h
    rw [applyPairs_cons, ih h.2]
    by_cases hk : hasKey fs kv.1 = true
    · rw [if_pos hk, lookupVal_setKey_ne h.1 kv.2]
    · rw [if_neg hk]

theorem lookupVal_applyPairs_mem {fs d : List (String × Option String)}
    {k : String} {v : Option String} (hnd : (d.map (fun p => p.1)).Nodup)
    (hmem : (k, v) ∈ d) (hk : hasKey fs k = true) :
    lookupVal (applyPairs fs d) k = v := by
  induction d generalizing fs with
  | nil => cases hmem
  | cons kv rest ih =>
    simp only [List.map_cons, List.nodup_cons] at hnd
    rw [applyPairs_cons]
    rcases List.mem_cons.mp hmem with heq | hrest
    · have hk1 : kv.1 = k := by rw [← heq]
      have hnotin : k ∉ rest.map (fun p => p.1) := hk1 ▸ hnd.1
      rw [lookupVal_applyPairs_not_mem hnotin, if_pos (by rw [hk1]; exact hk)]
      rw [hk1, lookupVal_setKey_self hk, ← heq]
    · refine ih hnd.2 hrest ?_
      by_cases hkv : hasKey fs kv.1 = true
      · rw [if_pos hkv, hasKey_congr (map_fst_setKey fs kv.1 kv.2) k]; exact hk
      · rw [if_neg hkv]; exact hk

theorem update_fields_foldl_aux (U : List (String × String)) (fm : FieldManager)
    (acc : List (String × String)) :
    U.foldl
        (fun acc kv =>
          if hasKey acc.1.fields kv.1 then
            (⟨setKey acc.1.fields kv.1 (some kv.2)⟩, acc.2 ++ [kv])
          else acc)
        (fm, acc) =
      (⟨applyUpdates fm.fields U⟩,
        acc ++ U.filter (fun kv => hasKey fm.fields kv.1)) := by
  induction U generalizing fm acc with
  | nil =>
    simp only [List.foldl_nil, List.filter_nil, List.append_nil]
    rfl
  | cons kv rest ih =>
    rw [List.foldl_cons]
    by_cases h : hasKey fm.fields kv.1 = true
    · rw [if_pos h, ih]
      have hfil : rest.filter (fun kv' => hasKey (setKey fm.fields kv.1 (some kv.2)) kv'.1) =
          rest.filter (fun kv' => hasKey fm.fields kv'.1) :=
        List.filter_congr (fun x _ => by
          rw [hasKey_congr (map_fst_setKey fm.fields kv.1 (some kv.2)) x.1])
      have h1 : applyUpdates fm.fields (kv :: rest) =
          applyUpdates (setKey fm.fields kv.1 (some kv.2)) rest := by
        rw [applyUpdates, List.map_cons, applyPairs_cons, if_pos h]; rfl
      have h2 : (kv :: rest).filter (fun kv' => hasKey fm.fields kv'.1) =
          kv :: rest.filter (fun kv' => hasKey fm.fields kv'.1) := by
        simp [List.filter_cons, h]
      rw [hfil, h1, h2]
      simp [List.append_assoc]
    · rw [if_neg h, ih]
      have h1 : applyUpdates fm.fields (kv :: rest) = applyUpdates fm.fields rest := by
        rw [applyUpdates, List.map_cons, applyPairs_cons, if_neg h]; rfl
      have h2 : (kv :: rest).filter (fun kv' => hasKey fm.fields kv'.1) =
          rest.filter (fun kv' => hasKey fm.fields kv'.1) := by
        simp [List.filter_cons, h]
      rw [h1, h2]

theorem update_fields_fst (fm : FieldManager) (U : List (String × String)) :
    (fm.update_fields U).1 = ⟨applyUpdates fm.fields U⟩ := by
  rw [FieldManager.update_fields, update_fields_foldl_aux]

theorem update_fields_snd (fm : FieldManager) (U : List (String × String)) :
    (fm.update_fields U).2 = U.filter (fun kv => hasKey fm.fields kv.1) := by
  rw [FieldManager.update_fields, update_fields_foldl_aux]
  exact (List.nil_append _)

/-! Field Tracker derived lemmas. -/

theorem schemaNames_nodup : schemaNames.Nodup := by decide

theorem map_fst_applyUpdates (fs : List (String × Option String))
    (U : List (String × String)) :
    (applyUpdates fs U).map (fun p => p.1) = fs.map (fun p => p.1) :=
  map_fst_applyPairs fs _

theorem WF_init : FieldManager.init.WF := by
  unfold FieldManager.init FieldManager.WF
  rw [List.map_map]
  exact List.map_id schemaNames

theorem WF_update {fm : FieldManager} (h : fm.WF) (U : List (String × String)) :
    (fm.update_fields U).1.WF := by
  rw [update_fields_fst]
  unfold FieldManager.WF at *
  rw [← h]
  exact map_fst_applyUpdates fm.fields U

theorem WF_from_dict {fm : FieldManager} (h : fm.WF)
    (d : List (String × Option String)) : (fm.from_dict d).WF := by
  unfold FieldManager.from_dict FieldManager.WF at *
  rw [← h]
  exact map_fst_applyPairs fm.fields d

theorem hasKey_of_WF {fm : FieldManager} (h : fm.WF) {k : String}
    (hk : k ∈ schemaNames) : hasKey fm.fields k = true := by
  rw [hasKey_iff_mem_fst, h]
  exact hk

/-- C4/C1 core: after `update_fields`, every applied schema-keyed pair is
readable back through `get_field`. -/
theorem get_field_update_mem {fm : FieldManager} (hWF : fm.WF)
    {U : List (String × String)} (hnd : (U.map (fun kv => kv.1)).Nodup)
    {k : String} {v : String} (hmem : (k, v) ∈ U) (hk : k ∈ schemaNames) :
    (fm.update_fields U).1.get_field k = some v := by
  rw [update_fields_fst]
  show lookupVal (applyUpdates fm.fields U) k = some v
  rw [applyUpdates]
  refine lookupVal_applyPairs_mem ?_ ?_ (hasKey_of_WF hWF hk)
  · rw [List.map_map]
    exact hnd
  · exact List.mem_map_of_mem _ hmem

theorem filledCount_le_length (fm : FieldManager) :
    fm.filledCount ≤ fm.fields.length :=
  List.length_filter_le _ _

theorem length_fields_of_WF {fm : FieldManager} (h : fm.WF) :
    fm.fields.length = 12 := by
  have := congrArg List.length h
  simpa using this

theorem calculate_progress_eq_progressSpec {fm : FieldManager} (h : fm.WF) :
    fm.calculate_progress = progressSpec fm := by
  unfold FieldManager.calculate_progress progressSpec
  rw [length_fields_of_WF h]
  have hs : ((schemaNames.length : ℕ) : ℚ) = 12 := by norm_num [schemaNames]
  rw [hs]
  have harg : (fm.filledCount * 1000 : ℚ) / ((12 : ℕ) : ℚ) =
      100 * fm.filledCount / 12 * 10 := by
    push_cast
    ring
  rw [harg]

theorem round_nonneg_of_nonneg {q : ℚ} (h : 0 ≤ q) : 0 ≤ round q := by
  rw [round_eq]
  rw [Int.le_floor]
  push_cast
  linarith

theorem round_le_of_le_thousand {q : ℚ} (h : q ≤ 1000) : round q ≤ 1000 := by
  rw [round_eq]
  have : ⌊q + 1 / 2⌋ < 1001 := by
    rw [Int.floor_lt]
    push_cast
    linarith
  omega

theorem calculate_progress_nonneg (fm : FieldManager) :
    0 ≤ fm.calculate_progress := by
  unfold FieldManager.calculate_progress
  have h0 : (0 : ℚ) ≤ (fm.filledCount * 1000 : ℚ) / fm.fields.length := by
    positivity
  have := round_nonneg_of_nonneg h0
  have hc : (0 : ℚ) ≤ ((round ((fm.filledCount * 1000 : ℚ) / fm.fields.length) : ℤ) : ℚ) := by
    exact_mod_cast this
  linarith

theorem calculate_progress_le_hundred {fm : FieldManager} (h : fm.WF) :
    fm.calculate_progress ≤ 100 := by
  unfold FieldManager.calculate_progress
  rw [length_fields_of_WF h]
  have hle : fm.filledCount ≤ 12 := by
    have := filledCount_le_length fm
    rw [length_fields_of_WF h] at this
    exact this
  have harg : (fm.filledCount * 1000 : ℚ) / 12 ≤ 1000 := by
    rw [div_le_iff₀ (by norm_num)]
    have : (fm.filledCount : ℚ) ≤ 12 := by exact_mod_cast hle
    linarith
  have := round_le_of_le_thousand harg
  have hc : ((round ((fm.filledCount * 1000 : ℚ) / 12) : ℤ) : ℚ) ≤ 1000 := by
    exact_mod_cast this
  linarith

/-! Conversation Log lemmas. -/

theorem pySliceLast_eq_rtake {n : Nat} (hn : n ≠ 0) (l : List α) :
    pySliceLast n l = l.rtake n := by
  simp [pySliceLast, hn, List.rtake]

theorem pySliceLast_length_le {n : Nat} (hn : n ≠ 0) (l : List α) :
    (pySliceLast n l).length ≤ n := by
  simp only [pySliceLast, hn, if_false]
  rw [List.length_drop]
  omega

theorem pySliceLast_suffix (n : Nat) (l : List α) : (pySliceLast n l).IsSuffix l := by
  by_cases hn : n = 0
  · simp [pySliceLast, hn]
  · simp only [pySliceLast, hn, if_false]
    exact List.drop_suffix _ l

theorem pySliceLast_of_length_le {n : Nat} {l : List α} (h : l.length ≤ n) :
    pySliceLast n l = l := by
  by_cases hn : n = 0
  · simp [pySliceLast, hn]
  · simp only [pySliceLast, hn, if_false]
    rw [Nat.sub_eq_zero_of_le h, List.drop_zero]

theorem rtake_append_rtake (n : Nat) (l m : List α) :
    (l.rtake n ++ m).rtake n = (l ++ m).rtake n := by
  rw [List.rtake_eq_reverse_take_reverse, List.rtake_eq_reverse_take_reverse,
    List.rtake_eq_reverse_take_reverse]
  congr 1
  rw [List.reverse_append, List.reverse_append, List.reverse_reverse]
  rw [List.take_append_eq_append_take, List.take_append_eq_append_take]
  congr 1
  rw [List.take_take]
  congr 1
  rw [List.length_reverse]
  omega

theorem pySliceLast_append_pySliceLast (n : Nat) (l m : List α) :
    pySliceLast n (pySliceLast n l ++ m) = pySliceLast n (l ++ m) := by
  by_cases hn : n = 0
  · simp [pySliceLast, hn]
  · rw [pySliceLast_eq_rtake hn, pySliceLast_eq_rtake hn, pySliceLast_eq_rtake hn,
      rtake_append_rtake]

theorem add_message_eq (cm : ConversationManager) (r c t : String)
    (a : Option String) :
    cm.add_message r c t a =
      if (cm.history ++ [ConvEntry.mk r c t a]).length > cm.max_history then
        ConversationManager.mk
          (pySliceLast cm.max_history (cm.history ++ [ConvEntry.mk r c t a]))
          cm.max_history
      else ConversationManager.mk (cm.history ++ [ConvEntry.mk r c t a])
        cm.max_history := rfl

theorem add_message_history (cm : ConversationManager) (r c t : String)
    (a : Option String) :
    (cm.add_message r c t a).history =
      pySliceLast cm.max_history (cm.history ++ [⟨r, c, t, a⟩]) := by
  rw [add_message_eq]
  split
  · rfl
  · next h =>
      dsimp only
      exact (pySliceLast_of_length_le (by omega)).symm

theorem add_message_max (cm : ConversationManager) (r c t : String)
    (a : Option String) :
    (cm.add_message r c t a).max_history = cm.max_history := by
  rw [add_message_eq]
  split <;> rfl

theorem addAll_max (cm : ConversationManager) (msgs : List ConvEntry) :
    (cm.addAll msgs).max_history = cm.max_history := by
  induction msgs generalizing cm with
  | nil => rfl
  | cons e rest ih =>
    show ((cm.add_message e.role e.content e.timestamp e.action).addAll rest).max_history = _
    rw [ih, add_message_max]

theorem addAll_cons (cm : ConversationManager) (e : ConvEntry)
    (rest : List ConvEntry) :
    cm.addAll (e :: rest) =
      (cm.add_message e.role e.content e.timestamp e.action).addAll rest := rfl

theorem addAll_history_of_ne_nil (cm : ConversationManager) {msgs : List ConvEntry}
    (h : msgs ≠ []) :
    (cm.addAll msgs).history = pySliceLast cm.max_history (cm.history ++ msgs) := by
  induction msgs generalizing cm with
  | nil => exact absurd rfl h
  | cons e rest ih =>
    rw [addAll_cons]
    by_cases hr : rest = []
    · subst hr
      show (cm.add_message e.role e.content e.timestamp e.action).history = _
      rw [add_message_history]
    · rw [ih _ hr, add_message_max, add_message_history,
        pySliceLast_append_pySliceLast, List.append_assoc]
      rfl

/-! Checkpoint round-trip lemmas. -/

theorem applyPairs_cons_head_not_mem {hd : String × Option String}
    {bt rest : List (String × Option String)}
    (hnot : hd.1 ∉ rest.map (fun p => p.1)) :
    applyPairs (hd :: bt) rest = hd :: applyPairs bt rest := by
  induction rest generalizing bt with
  | nil => rfl
  | cons kv rt ih =>
    simp only [List.map_cons, List.mem_cons, not_or] at hnot
    rw [applyPairs_cons, applyPairs_cons]
    have hne : ¬ (hd.1 = kv.1) := hnot.1
    rw [hasKey_cons, if_neg hne, setKey_cons, if_neg hne]
    by_cases hk : hasKey bt kv.1 = true
    · rw [if_pos hk, if_pos hk, ih hnot.2]
    · rw [if_neg hk, if_neg hk, ih hnot.2]

theorem applyPairs_self {base data : List (String × Option String)}
    (hfst : data.map (fun p => p.1) = base.map (fun p => p.1))
    (hnd : (base.map (fun p => p.1)).Nodup) :
    applyPairs base data = data := by
  induction data generalizing base with
  | nil =>
    have : base = [] := by
      cases base with
      | nil => rfl
      | cons q bt => simp at hfst
    rw [this, applyPairs_nil]
  | cons kv rest ih =>
    cases base with
    | nil => simp at hfst
    | cons q bt =>
      obtain ⟨k1, v1⟩ := kv
      simp only [List.map_cons, List.cons.injEq] at hfst
      simp only [List.map_cons, List.nodup_cons] at hnd
      have hq : q.1 = k1 := hfst.1.symm
      have hbt : setKey bt k1 v1 = bt := by
        refine setKey_of_hasKey_eq_false ?_ v1
        cases hin : hasKey bt k1 with
        | false => rfl
        | true =>
          exact absurd (hfst.1 ▸ (hasKey_iff_mem_fst bt k1).mp hin) hnd.1
      rw [applyPairs_cons]
      dsimp only
      have hhas : hasKey (q :: bt) k1 = true := by
        rw [hasKey_cons, hq, if_pos rfl]
      rw [if_pos hhas, setKey_cons, hq, if_pos rfl, hbt]
      have hnotin : k1 ∉ rest.map (fun p => p.1) := by
        intro hmem
        exact hnd.1 (hfst.2 ▸ hfst.1 ▸ hmem)
      rw [applyPairs_cons_head_not_mem hnotin, ih hfst.2 hnd.2]

theorem from_dict_to_dict {fm : FieldManager} (h : fm.WF) :
    FieldManager.init.from_dict fm.to_dict = fm := by
  unfold FieldManager.from_dict FieldManager.to_dict
  have hfst : fm.fields.map (fun p => p.1) =
      FieldManager.init.fields.map (fun p => p.1) := by
    rw [h, WF_init]
  rw [applyPairs_self hfst (by rw [WF_init]; exact schemaNames_nodup)]

/-! Reachability invariants. -/

theorem FMReach_WF {fm : FieldManager} (h : FMReach fm) : fm.WF := by
  induction h with
  | init => exact WF_init
  | update fm U _ ih => exact WF_update ih U
  | fromDict fm d _ ih => exact WF_from_dict ih d
  | reset fm _ => exact WF_init

theorem add_message_length_le {cm : ConversationManager}
    (hmax : 1 ≤ cm.max_history) (r c t : String) (a : Option String) :
    (cm.add_message r c t a).history.length ≤ cm.max_history := by
  rw [add_message_history]
  exact pySliceLast_length_le (by omega) _

theorem CMReach_length_le {cm : ConversationManager} (h : CMReach cm) :
    cm.history.length ≤ cm.max_history ∨ cm.max_history = 0 := by
  induction h with
  | init m => left; simp [ConversationManager.init]
  | add cm r c t a _ ih =>
    by_cases hm : cm.max_history = 0
    · right
      rw [add_message_max]
      exact hm
    · left
      rw [add_message_max]
      exact add_message_length_le (by omega) r c t a
  | fromDict cm hs _ ih =>
    by_cases hm : cm.max_history = 0
    · right; exact hm
    · left
      exact pySliceLast_length_le hm hs
  | clear cm _ => left; simp [ConversationManager.clear]

theorem conv_from_dict_to_dict {cm : ConversationManager} (h : CMReach cm) :
    (ConversationManager.init cm.max_history).from_dict cm.to_dict = cm := by
  obtain ⟨hist, m⟩ := cm
  unfold ConversationManager.from_dict ConversationManager.to_dict
    ConversationManager.init
  rcases CMReach_length_le h with hle | h0
  · rw [pySliceLast_of_length_le hle]
  · subst h0
    simp [pySliceLast]

/-! Confirmation-flow lemmas. -/

theorem fallback_not_modification (m : String) :
    (fallback_detection m).is_modification_request = false := rfl

theorem fallback_no_mods (m : String) :
    (fallback_detection m).extracted_modifications = none := rfl

theorem fallback_confidence (m : String) :
    (fallback_detection m).confidence = mkRat 7 10 := rfl

theorem confirmApplies_fallback_yes : confirmApplies (fallback_detection "yes") := by
  decide

theorem fallback_no_is_rejection : (fallback_detection "no").is_rejection = true := by
  decide

theorem fallback_no_not_confirmation :
    (fallback_detection "no").is_confirmation = false := by
  decide

theorem handleMessage_awaiting {st : AgentSt}
    (h : st.session.awaiting_confirmation = true) (inp : TurnInput) :
    handleMessage st inp = handleConfirmationFlow st inp.det inp.search := by
  unfold handleMessage
  rw [if_pos h]

theorem handleConfirmationFlow_confirm {st : AgentSt} {det : ConfirmationDetection}
    (h : confirmApplies det) (search : String → RagResult) :
    handleConfirmationFlow st det search =
      (let fm1 := (st.fm.update_fields (st.session.pending_suggestions.getD [])).1
       let s1 :=
         { st.session with
             awaiting_confirmation := false
             pending_suggestions := none
             progress_pct := fm1.calculate_progress }
       let st1 : AgentSt := ⟨s1, fm1⟩
       let fire := ¬ s1.rag_search_performed ∧ ¬ fm1.is_complete
       let st2 := if fire then autoTriggerRag st1 search else st1
       (st2, { rtype := "apply_suggestions", progress_pct := some s1.progress_pct },
         decide fire)) := by
  unfold handleConfirmationFlow
  rw [if_pos h]

theorem handleConfirmationFlow_reject {st : AgentSt} {det : ConfirmationDetection}
    (hnc : ¬ confirmApplies det)
    (hnm : ¬ (det.is_modification_request = true ∧ det.extracted_modifications.getD [] ≠ []))
    (hr : det.is_rejection = true) (search : String → RagResult) :
    handleConfirmationFlow st det search =
      (⟨{ st.session with
            awaiting_confirmation := false
            pending_suggestions := none }, st.fm⟩,
        { rtype := "rejection" }, false) := by
  unfold handleConfirmationFlow
  rw [if_neg hnc, if_neg (by simpa using hnm), if_pos hr]

theorem autoTriggerRag_fm (st : AgentSt) (search : String → RagResult) :
    (autoTriggerRag st search).fm = st.fm := by
  unfold autoTriggerRag
  dsimp only
  split
  · split <;> rfl
  · rfl

theorem autoTriggerRag_cases (st : AgentSt) (search : String → RagResult) :
    autoTriggerRag st search = st ∨
      ((autoTriggerRag st search).session.awaiting_confirmation = true ∧
        (autoTriggerRag st search).session.rag_search_performed = true ∧
        ∃ l2, (autoTriggerRag st search).session.pending_suggestions = some l2 ∧
          l2 ≠ [] ∧
          ∀ kv ∈ l2,
            kv ∈ (search (pyOrStr (st.fm.get_field "Problem") "study request")).found_fields ∧
            truthy (st.fm.get_field kv.1) = false) := by
  unfold autoTriggerRag
  dsimp only
  split
  · split
    · next hne =>
      right
      refine ⟨rfl, rfl, _, rfl, hne, ?_⟩
      intro kv hkv
      have := List.mem_filter.mp hkv
      refine ⟨this.1, ?_⟩
      simpa using this.2
    · left; rfl
  · left; rfl

theorem autoTriggerRag_flag_true {st : AgentSt} (search : String → RagResult)
    (h : st.session.rag_search_performed = true) :
    (autoTriggerRag st search).session.rag_search_performed = true := by
  unfold autoTriggerRag
  dsimp only
  split
  · split
    · rfl
    · exact h
  · exact h

theorem regularFlow_rag_flag (st : AgentSt) (dec : AgentDecision)
    (search : String → RagResult) (ts : String) :
    (handleRegularFlow st dec search ts).1.session.rag_search_performed =
      st.session.rag_search_performed := by
  unfold handleRegularFlow
  dsimp only
  split <;> rfl

theorem confirmFlow_rag_flag_mono {st : AgentSt} {det : ConfirmationDetection}
    {search : String → RagResult}
    (h : st.session.rag_search_performed = true) :
    (handleConfirmationFlow st det search).1.session.rag_search_performed = true := by
  unfold handleConfirmationFlow
  dsimp only
  split
  · split
    · exact autoTriggerRag_flag_true _ h
    · exact h
  · split
    · exact h
    · split
      · exact h
      · exact h

theorem handleMessage_rag_flag_mono {st : AgentSt} {inp : TurnInput}
    (h : st.session.rag_search_performed = true) :
    (handleMessage st inp).1.session.rag_search_performed = true := by
  unfold handleMessage
  split
  · exact confirmFlow_rag_flag_mono h
  · rw [regularFlow_rag_flag]
    exact h

theorem runTraceProductive_zero_of_flag {st : AgentSt} (trace : List TurnInput)
    (h : st.session.rag_search_performed = true) :
    (runTraceProductive st trace).2 = 0 := by
  induction trace generalizing st with
  | nil => rfl
  | cons inp rest ih =>
    show ((if turnAutoProductive st inp then 1 else 0) +
      (runTraceProductive (handleMessage st inp).1 rest).2) = 0
    have hp : turnAutoProductive st inp = false := by
      unfold turnAutoProductive
      rw [h]
      simp
    rw [hp, ih (handleMessage_rag_flag_mono h)]
    rfl

theorem turnAutoProductive_flag {st : AgentSt} {inp : TurnInput}
    (h : turnAutoProductive st inp = true) :
    (handleMessage st inp).1.session.rag_search_performed = true := by
  unfold turnAutoProductive at h
  simp only [Bool.and_eq_true] at h
  exact h.2.1

/-! Lemmas about filled / empty views and unique keys. -/

theorem lookup_applyPairs_not_hasKey {fs d : List (String × Option String)}
    {k : String} (h : hasKey fs k = false) :
    lookupVal (applyPairs fs d) k = lookupVal fs k := by
  induction d generalizing fs with
  | nil => rfl
  | cons kv rest ih =>
    rw [applyPairs_cons]
    by_cases hk : hasKey fs kv.1 = true
    · rw [if_pos hk]
      have hne : k ≠ kv.1 := by
        intro e
        rw [e] at h
        rw [hk] at h
        cases h
      rw [ih (by rw [hasKey_congr (map_fst_setKey fs kv.1 kv.2)]; exact h),
        lookupVal_setKey_ne hne]
    · rw [if_neg hk, ih h]

theorem mem_unique_key {l : List (String × Option String)}
    (hnd : (l.map (fun p => p.1)).Nodup) {k : String} {a b : Option String}
    (ha : (k, a) ∈ l) (hb : (k, b) ∈ l) : a = b := by
  induction l with
  | nil => cases ha
  | cons p t ih =>
    simp only [List.map_cons, List.nodup_cons] at hnd
    rcases List.mem_cons.mp ha with ha1 | ha2
    · rcases List.mem_cons.mp hb with hb1 | hb2
      · rw [← ha1] at hb1
        exact (Prod.mk.injEq _ _ _ _ ▸ hb1).2.symm
      · exfalso
        apply hnd.1
        have : p.1 = k := by rw [← ha1]
        rw [this]
        exact List.mem_map.mpr ⟨(k, b), hb2, rfl⟩
    · rcases List.mem_cons.mp hb with hb1 | hb2
      · exfalso
        apply hnd.1
        have : p.1 = k := by rw [← hb1]
        rw [this]
        exact List.mem_map.mpr ⟨(k, a), ha2, rfl⟩
      · exact ih hnd.2 ha2 hb2

theorem lookupVal_mem {l : List (String × Option String)} {k : String}
    {v : Option String} (hk : hasKey l k = true) (h : lookupVal l k = v) :
    (k, v) ∈ l := by
  induction l with
  | nil => cases hk
  | cons p t ih =>
    rw [lookupVal_cons] at h
    rw [hasKey_cons] at hk
    by_cases hp : p.1 = k
    · rw [if_pos hp] at h
      have hpv : p = (k, v) := by rw [← hp, ← h]
      rw [← hpv]
      exact List.mem_cons_self _ _
    · rw [if_neg hp] at h
      rw [if_neg hp] at hk
      exact List.mem_cons_of_mem _ (ih hk h)

theorem mem_get_filled_iff (fm : FieldManager) (k : String) (v : String) :
    (k, v) ∈ fm.get_filled_fields ↔ (k, some v) ∈ fm.fields ∧ v ≠ "" := by
  unfold FieldManager.get_filled_fields
  rw [List.mem_filterMap]
  constructor
  · rintro ⟨p, hp, hg⟩
    obtain ⟨k1, ov⟩ := p
    cases ov with
    | none => cases hg
    | some w =>
      by_cases hw : w = ""
      · rw [hw] at hg
        simp at hg
      · simp only [hw, if_false] at hg
        have hpair := Option.some.inj hg
        have h1 : k1 = k := congrArg Prod.fst hpair
        have h2 : w = v := congrArg Prod.snd hpair
        subst h1
        subst h2
        exact ⟨hp, hw⟩
  · rintro ⟨hm, hv⟩
    exact ⟨(k, some v), hm, by simp [hv]⟩

theorem mem_get_empty_iff (fm : FieldManager) (k : String) :
    k ∈ fm.get_empty_fields ↔ ∃ ov, (k, ov) ∈ fm.fields ∧ truthy ov = false := by
  unfold FieldManager.get_empty_fields
  rw [List.mem_map]
  constructor
  · rintro ⟨p, hp, hk⟩
    have := List.mem_filter.mp hp
    exact ⟨p.2, by rw [← hk]; exact (Prod.mk.eta ▸ this.1), by simpa using this.2⟩
  · rintro ⟨ov, hm, hov⟩
    exact ⟨(k, ov), List.mem_filter.mpr ⟨hm, by simpa using hov⟩, rfl⟩

theorem is_complete_truthy {fm : FieldManager} (h : fm.is_complete = true) :
    ∀ p ∈ fm.fields, truthy p.2 = true := by
  intro p hp
  exact List.all_eq_true.mp h p hp

theorem not_complete_of_mem_falsy {fm : FieldManager} {p : String × Option String}
    (hp : p ∈ fm.fields) (hf : truthy p.2 = false) : fm.is_complete = false := by
  cases hc : fm.is_complete with
  | false => rfl
  | true =>
    have := is_complete_truthy hc p hp
    rw [hf] at this
    cases this

/-- With a complete, well-formed tracker every schema field appears in the
filled view and is readable through get_field. -/
theorem complete_filled_cover {fm : FieldManager} (hWF : fm.WF)
    (hc : fm.is_complete = true) :
    ∀ k ∈ schemaNames, ∃ v, (k, v) ∈ fm.get_filled_fields ∧
      fm.get_field k = some v := by
  intro k hk
  have hkm : k ∈ fm.fields.map (fun p => p.1) := by rw [hWF]; exact hk
  obtain ⟨p, hp, hpk⟩ := List.mem_map.mp hkm
  obtain ⟨k1, ov⟩ := p
  dsimp at hpk
  subst hpk
  have htr := is_complete_truthy hc _ hp
  cases ov with
  | none => cases htr
  | some v =>
    have hv : v ≠ "" := by
      intro e
      rw [e] at htr
      cases htr
    refine ⟨v, (mem_get_filled_iff fm k1 v).mpr ⟨hp, hv⟩, ?_⟩
    have hnd : (fm.fields.map (fun p => p.1)).Nodup := by
      rw [hWF]; exact schemaNames_nodup
    have hhk : hasKey fm.fields k1 = true := by
      rw [hasKey_iff_mem_fst]
      exact List.mem_map.mpr ⟨(k1, some v), hp, rfl⟩
    cases hlv : lookupVal fm.fields k1 with
    | none =>
      have := lookupVal_mem hhk hlv
      have := mem_unique_key hnd this hp
      cases this
    | some w =>
      have hmem := lookupVal_mem hhk hlv
      have := mem_unique_key hnd hmem hp
      show lookupVal fm.fields k1 = some v
      rw [hlv, this]

/-! Claim theorems. -/

/-- C4: for every update mapping U whose keys all belong to the schema,
after update(U) get(k) returns U[k] for every k in U; progress() equals
100 * |filled| / N rounded to one decimal (the spec formula `progressSpec`),
is recomputed from the current values, and lies in [0, 100]. -/
theorem update_get_progress
    (fm : FieldManager) (U : List (String × String))
    (hWF : fm.WF)
    (hkeys : ∀ kv ∈ U, kv.1 ∈ schemaNames)
    (hnd : (U.map (fun kv => kv.1)).Nodup) :
    (∀ kv ∈ U, (fm.update_fields U).1.get_field kv.1 = some kv.2) ∧
    (fm.update_fields U).1.calculate_progress = progressSpec (fm.update_fields U).1 ∧
    0 ≤ (fm.update_fields U).1.calculate_progress ∧
    (fm.update_fields U).1.calculate_progress ≤ 100 := by
  have hWF1 := WF_update hWF U
  refine ⟨?_, calculate_progress_eq_progressSpec hWF1,
    calculate_progress_nonneg _, calculate_progress_le_hundred hWF1⟩
  intro kv hkv
  exact get_field_update_mem hWF hnd hkv (hkeys kv hkv)

/-- Witness for C4 at U = [("Client", "Acme")] over the fresh tracker. -/
theorem update_get_progress_witness :
    (∀ kv ∈ [("Client", "Acme")],
      (FieldManager.init.update_fields [("Client", "Acme")]).1.get_field kv.1 =
        some kv.2) ∧
    (FieldManager.init.update_fields [("Client", "Acme")]).1.calculate_progress =
      progressSpec (FieldManager.init.update_fields [("Client", "Acme")]).1 ∧
    0 ≤ (FieldManager.init.update_fields [("Client", "Acme")]).1.calculate_progress ∧
    (FieldManager.init.update_fields [("Client", "Acme")]).1.calculate_progress ≤ 100 :=
  update_get_progress FieldManager.init [("Client", "Acme")] WF_init
    (by decide) (by decide)

/-- C5: the key list of the mapping is invariant under update and
fromSnapshot (so it always equals the schema on well-formed trackers);
an update with a non-schema key is silently ignored: the applied subset
contains only present keys, the lookup at such a key is unchanged, and the
pair is excluded from the applied subset. -/
theorem schema_keys_invariant
    (fm : FieldManager) (U : List (String × String))
    (d : List (String × Option String)) :
    (fm.update_fields U).1.fields.map (fun p => p.1) =
      fm.fields.map (fun p => p.1) ∧
    (fm.from_dict d).fields.map (fun p => p.1) = fm.fields.map (fun p => p.1) ∧
    (fm.WF → (fm.update_fields U).1.WF ∧ (fm.from_dict d).WF) ∧
    (∀ kv ∈ (fm.update_fields U).2, hasKey fm.fields kv.1 = true) ∧
    (∀ kv ∈ U, hasKey fm.fields kv.1 = false →
      (fm.update_fields U).1.get_field kv.1 = fm.get_field kv.1 ∧
      kv ∉ (fm.update_fields U).2) := by
  refine ⟨?_, map_fst_applyPairs fm.fields d,
    fun h => ⟨WF_update h U, WF_from_dict h d⟩, ?_, ?_⟩
  · rw [update_fields_fst]
    exact map_fst_applyUpdates fm.fields U
  · rw [update_fields_snd]
    intro kv hkv
    exact (List.mem_filter.mp hkv).2
  · intro kv _hkv hfalse
    constructor
    · rw [update_fields_fst]
      exact lookup_applyPairs_not_hasKey hfalse
    · rw [update_fields_snd]
      intro hmem
      have := (List.mem_filter.mp hmem).2
      rw [hfalse] at this
      cases this

/-- Witness for C5 at the unknown keys "Bogus" / "Nope" over the fresh
tracker. -/
theorem schema_keys_invariant_witness :
    ((FieldManager.init.update_fields [("Bogus", "x")]).1.fields.map
        (fun p => p.1) = FieldManager.init.fields.map (fun p => p.1)) ∧
    ((FieldManager.init.from_dict [("Nope", some "y")]).fields.map
        (fun p => p.1) = FieldManager.init.fields.map (fun p => p.1)) ∧
    ((FieldManager.init.update_fields [("Bogus", "x")]).1.get_field "Bogus" =
        FieldManager.init.get_field "Bogus" ∧
      ("Bogus", "x") ∉ (FieldManager.init.update_fields [("Bogus", "x")]).2) := by
  have h := schema_keys_invariant FieldManager.init [("Bogus", "x")]
    [("Nope", some "y")]
  exact ⟨h.1, h.2.1, h.2.2.2.2 ("Bogus", "x") (by decide) (by decide)⟩

/-- C10: updating a schema field with the empty string succeeds and reports
the field as applied, yet the field is excluded from the filled view,
appears in the empty view, is not counted by progress, and completion
remains false. -/
theorem empty_string_update
    (fm : FieldManager) (f : String) (hWF : fm.WF) (hf : f ∈ schemaNames) :
    (fm.update_fields [(f, "")]).2 = [(f, "")] ∧
    (fm.update_fields [(f, "")]).1.get_field f = some "" ∧
    (∀ kv ∈ (fm.update_fields [(f, "")]).1.get_filled_fields, kv.1 ≠ f) ∧
    f ∈ (fm.update_fields [(f, "")]).1.get_empty_fields ∧
    (fm.update_fields [(f, "")]).1.is_complete = false ∧
    (fm.update_fields [(f, "")]).1.filledCount =
      (((fm.update_fields [(f, "")]).1.fields.filter (fun p => p.1 ≠ f)).filter
        (fun p => truthy p.2)).length := by
  have hWF1 := WF_update hWF [(f, "")]
  have hnd1 : ((fm.update_fields [(f, "")]).1.fields.map (fun p => p.1)).Nodup := by
    rw [hWF1]
    exact schemaNames_nodup
  have hget : (fm.update_fields [(f, "")]).1.get_field f = some "" :=
    get_field_update_mem hWF (by simp) (by simp) hf
  have hmem : (f, some "") ∈ (fm.update_fields [(f, "")]).1.fields :=
    lookupVal_mem (hasKey_of_WF hWF1 hf) hget
  refine ⟨?_, hget, ?_, ?_, ?_, ?_⟩
  · rw [update_fields_snd]
    simp [List.filter_cons, hasKey_of_WF hWF hf]
  · intro kv hkv heq
    obtain ⟨hfil1, hfil2⟩ := (mem_get_filled_iff _ kv.1 kv.2).mp hkv
    rw [heq] at hfil1
    exact hfil2 (Option.some.inj (mem_unique_key hnd1 hfil1 hmem))
  · exact (mem_get_empty_iff _ f).mpr ⟨some "", hmem, rfl⟩
  · exact not_complete_of_mem_falsy hmem rfl
  · unfold FieldManager.filledCount
    rw [List.filter_filter]
    refine congrArg List.length ?_
    refine (List.filter_congr ?_)
    intro x hx
    by_cases hxf : x.1 = f
    · have hx' : (x.1, x.2) ∈ (fm.update_fields [(f, "")]).1.fields := hx
      have hx2 : x.2 = some "" := mem_unique_key hnd1 (hxf ▸ hx') hmem
      rw [hx2, hxf]
      simp [truthy]
    · simp [hxf]

/-- Witness for C10 at f = "Client" over the fresh tracker. -/
theorem empty_string_update_witness :
    (FieldManager.init.update_fields [("Client", "")]).2 = [("Client", "")] ∧
    (FieldManager.init.update_fields [("Client", "")]).1.get_field "Client" =
      some "" ∧
    (∀ kv ∈ (FieldManager.init.update_fields [("Client", "")]).1.get_filled_fields,
      kv.1 ≠ "Client") ∧
    "Client" ∈ (FieldManager.init.update_fields [("Client", "")]).1.get_empty_fields ∧
    (FieldManager.init.update_fields [("Client", "")]).1.is_complete = false ∧
    (FieldManager.init.update_fields [("Client", "")]).1.filledCount =
      (((FieldManager.init.update_fields [("Client", "")]).1.fields.filter
          (fun p => p.1 ≠ "Client")).filter (fun p => truthy p.2)).length :=
  empty_string_update FieldManager.init "Client" WF_init (by decide)

/-- C3: executing a SUBMIT_FORM decision on an incomplete Field Tracker
returns an "incomplete" response and mutates nothing; on a complete tracker
it returns a "submitted" response whose ticket identifier is the fixed
prefix "STUDY-" plus the formatted timestamp and whose payload is the full
filled field set (covering every schema field), and the Field Tracker is
unchanged afterwards. -/
theorem submit_form_behaviour
    (fm : FieldManager) (dec : AgentDecision) (search : String → RagResult)
    (ts : String) (hact : dec.action = ActionType.submit_form) :
    (fm.is_complete = false →
      (executeAction fm dec search ts).2.rtype = "incomplete" ∧
      (executeAction fm dec search ts).1 = fm) ∧
    (fm.is_complete = true →
      (executeAction fm dec search ts).2.rtype = "submitted" ∧
      (executeAction fm dec search ts).2.ticket_id = some ("STUDY-" ++ ts) ∧
      (executeAction fm dec search ts).2.ticket_data = some fm.get_filled_fields ∧
      (executeAction fm dec search ts).1 = fm ∧
      (fm.WF → ∀ k ∈ schemaNames, ∃ v, (k, v) ∈ fm.get_filled_fields ∧
        fm.get_field k = some v)) := by
  have hexe : executeAction fm dec search ts = (fm, executeSubmitForm fm ts) := by
    unfold executeAction
    rw [hact]
  rw [hexe]
  constructor
  · intro hinc
    unfold executeSubmitForm
    rw [if_pos (by simp [hinc])]
    exact ⟨rfl, rfl⟩
  · intro hc
    unfold executeSubmitForm
    rw [if_neg (by simp [hc])]
    exact ⟨rfl, rfl, rfl, rfl, fun hWF => complete_filled_cover hWF hc⟩

/-- Witness for C3: the fresh tracker refuses, the fully filled tracker
submits with the ticket payload unchanged. -/
theorem submit_form_behaviour_witness :
    ((executeAction FieldManager.init submitDecision stubSearch "20250101").2.rtype =
        "incomplete" ∧
      (executeAction FieldManager.init submitDecision stubSearch "20250101").1 =
        FieldManager.init) ∧
    ((executeAction fullFM submitDecision stubSearch "20250101").2.rtype =
        "submitted" ∧
      (executeAction fullFM submitDecision stubSearch "20250101").2.ticket_id =
        some ("STUDY-" ++ "20250101") ∧
      (executeAction fullFM submitDecision stubSearch "20250101").2.ticket_data =
        some fullFM.get_filled_fields ∧
      (executeAction fullFM submitDecision stubSearch "20250101").1 = fullFM ∧
      (fullFM.WF → ∀ k ∈ schemaNames, ∃ v, (k, v) ∈ fullFM.get_filled_fields ∧
        fullFM.get_field k = some v)) :=
  ⟨(submit_form_behaviour FieldManager.init submitDecision stubSearch
      "20250101" rfl).1 (by decide),
   (submit_form_behaviour fullFM submitDecision stubSearch "20250101" rfl).2
      (by decide)⟩

/-- C7: for reachable Field Tracker and Conversation Log states, restoring
from the snapshot of the state (from_dict of to_dict, as the checkpoint
restore path does over freshly constructed components) reproduces the state
exactly: same value for every field, same history in the same order. -/
theorem checkpoint_roundtrip (fm : FieldManager) (cm : ConversationManager)
    (hfm : FMReach fm) (hcm : CMReach cm) :
    FieldManager.init.from_dict fm.to_dict = fm ∧
    (ConversationManager.init cm.max_history).from_dict cm.to_dict = cm :=
  ⟨from_dict_to_dict (FMReach_WF hfm), conv_from_dict_to_dict hcm⟩

/-- Witness for C7 at a reachable tracker with Client set and a log with
one appended entry. -/
theorem checkpoint_roundtrip_witness :
    FieldManager.init.from_dict
        ((FieldManager.init.update_fields [("Client", "Acme")]).1).to_dict =
      (FieldManager.init.update_fields [("Client", "Acme")]).1 ∧
    (ConversationManager.init
        (((ConversationManager.init 50).add_message "user" "hi" "t0"
            none).max_history)).from_dict
        (((ConversationManager.init 50).add_message "user" "hi" "t0"
            none).to_dict) =
      ((ConversationManager.init 50).add_message "user" "hi" "t0" none) :=
  checkpoint_roundtrip
    (FieldManager.init.update_fields [("Client", "Acme")]).1
    ((ConversationManager.init 50).add_message "user" "hi" "t0" none)
    (FMReach.update FieldManager.init [("Client", "Acme")] FMReach.init)
    (CMReach.add (ConversationManager.init 50) "user" "hi" "t0" none
      (CMReach.init 50))

/-- C9: whenever the model-collaborator call inside the Decision Engine
fails (the try-block outcome is an exception), decide_action returns the
deterministic fallback: a CLARIFY decision with the fixed apology message,
confidence 0.3 and requires_user_input true — and, being a total function
of the outcome, it never throws further. -/
theorem decide_action_fallback_clarify (msg tag e : String) :
    decide_action msg tag (Except.error e) = fallback_decision ∧
    (decide_action msg tag (Except.error e)).action = ActionType.clarify ∧
    (decide_action msg tag (Except.error e)).message_to_user =
      "I\x27m having trouble understanding. Could you rephrase that?" ∧
    (decide_action msg tag (Except.error e)).confidence = mkRat 3 10 ∧
    (decide_action msg tag (Except.error e)).requires_user_input = true :=
  ⟨rfl, rfl, rfl, rfl, rfl⟩

/-- C2 counterexample: from a fresh session, two suggest-and-confirm cycles
with the retrieval backend returning zero results (the stubbed real client)
fire the auto-triggered search twice. -/
theorem auto_rag_fires_twice_cex :
    (runTrace AgentSt.init cexTrace).2 = 2 ∧
    ¬ ((runTrace AgentSt.init cexTrace).2 ≤ 1) := by
  decide

/-- C2 (amended): across a session lifetime the auto-triggered retrieval
search can fire again while no search has returned new suggestions; at most
one auto-triggered search ever returns new suggestions (that one sets
rag_search_performed, after which the trigger is disabled). -/
theorem auto_rag_productive_at_most_once (st : AgentSt)
    (trace : List TurnInput) :
    (runTraceProductive st trace).2 ≤ 1 := by
  induction trace generalizing st with
  | nil => exact Nat.zero_le 1
  | cons inp rest ih =>
    show (if turnAutoProductive st inp then 1 else 0) +
        (runTraceProductive (handleMessage st inp).1 rest).2 ≤ 1
    cases hp : turnAutoProductive st inp with
    | true =>
      rw [if_pos rfl,
        runTraceProductive_zero_of_flag rest (turnAutoProductive_flag hp)]
    | false =>
      simpa using ih (handleMessage st inp).1

/-- C6 counterexample: with a configured cap of 0 the Python slice
history[-0:] keeps the whole list, so the length exceeds the cap after one
append. -/
theorem conversation_cap_zero_cex :
    ((ConversationManager.init 0).add_message "user" "hi" "t0" none).history.length
        = 1 ∧
    ¬ (((ConversationManager.init 0).add_message "user" "hi" "t0"
          none).history.length ≤ (ConversationManager.init 0).max_history) := by
  decide

/-- C6 (amended): for every positive cap (the default 50 included), the log
length never exceeds the cap after any append; the surviving entries are
the most recent ones in FIFO order (a suffix of the appended sequence,
exactly the Python slice of the last cap entries); and from_dict restores
at most cap entries, keeping the most recent ones. -/
theorem conversation_cap_bound (cm : ConversationManager)
    (msgs snap : List ConvEntry) (e : ConvEntry) (hmax : 1 ≤ cm.max_history) :
    (cm.add_message e.role e.content e.timestamp e.action).history.length ≤
      cm.max_history ∧
    (msgs ≠ [] →
      (cm.addAll msgs).history = pySliceLast cm.max_history (cm.history ++ msgs)) ∧
    (cm.addAll msgs).history <:+ cm.history ++ msgs ∧
    (cm.from_dict snap).history = pySliceLast cm.max_history snap ∧
    (cm.from_dict snap).history.length ≤ cm.max_history ∧
    (cm.from_dict snap).history <:+ snap := by
  have hm0 : cm.max_history ≠ 0 := by omega
  refine ⟨add_message_length_le hmax _ _ _ _,
    fun hne => addAll_history_of_ne_nil cm hne, ?_, rfl,
    pySliceLast_length_le hm0 snap, pySliceLast_suffix _ _⟩
  cases msgs with
  | nil =>
    show cm.history <:+ cm.history ++ []
    rw [List.append_nil]
  | cons e1 rest =>
    rw [addAll_history_of_ne_nil cm (by simp)]
    exact pySliceLast_suffix _ _

/-- Witness for C6 at cap 2 with three appends and a four-entry snapshot. -/
theorem conversation_cap_bound_witness :
    ((ConversationManager.init 2).add_message "user" "a" "t1" none).history.length ≤
      (ConversationManager.init 2).max_history ∧
    ([ConvEntry.mk "user" "a" "t1" none, ConvEntry.mk "assistant" "b" "t2" none,
        ConvEntry.mk "user" "c" "t3" none] ≠ [] →
      ((ConversationManager.init 2).addAll
          [ConvEntry.mk "user" "a" "t1" none,
           ConvEntry.mk "assistant" "b" "t2" none,
           ConvEntry.mk "user" "c" "t3" none]).history =
        pySliceLast (ConversationManager.init 2).max_history
          ((ConversationManager.init 2).history ++
            [ConvEntry.mk "user" "a" "t1" none,
             ConvEntry.mk "assistant" "b" "t2" none,
             ConvEntry.mk "user" "c" "t3" none])) ∧
    ((ConversationManager.init 2).addAll
        [ConvEntry.mk "user" "a" "t1" none,
         ConvEntry.mk "assistant" "b" "t2" none,
         ConvEntry.mk "user" "c" "t3" none]).history <:+
      (ConversationManager.init 2).history ++
        [ConvEntry.mk "user" "a" "t1" none,
         ConvEntry.mk "assistant" "b" "t2" none,
         ConvEntry.mk "user" "c" "t3" none] ∧
    ((ConversationManager.init 2).from_dict
        [ConvEntry.mk "user" "a" "t1" none,
         ConvEntry.mk "assistant" "b" "t2" none]).history =
      pySliceLast (ConversationManager.init 2).max_history
        [ConvEntry.mk "user" "a" "t1" none,
         ConvEntry.mk "assistant" "b" "t2" none] ∧
    ((ConversationManager.init 2).from_dict
        [ConvEntry.mk "user" "a" "t1" none,
         ConvEntry.mk "assistant" "b" "t2" none]).history.length ≤
      (ConversationManager.init 2).max_history ∧
    ((ConversationManager.init 2).from_dict
        [ConvEntry.mk "user" "a" "t1" none,
         ConvEntry.mk "assistant" "b" "t2" none]).history <:+
      [ConvEntry.mk "user" "a" "t1" none,
       ConvEntry.mk "assistant" "b" "t2" none] :=
  conversation_cap_bound (ConversationManager.init 2)
    [ConvEntry.mk "user" "a" "t1" none, ConvEntry.mk "assistant" "b" "t2" none,
     ConvEntry.mk "user" "c" "t3" none]
    [ConvEntry.mk "user" "a" "t1" none, ConvEntry.mk "assistant" "b" "t2" none]
    (ConvEntry.mk "user" "a" "t1" none) (by decide)

/-- C8: while awaiting confirmation with suggestions pending, a message the
classifier marks as a rejection (and not a confirmation nor a modification
— the rule-based fallback never extracts modifications) clears
awaiting_confirmation and pending_suggestions while leaving every Field
Tracker value untouched. -/
theorem rejection_clears_flags
    (st : AgentSt) (dec : AgentDecision) (search : String → RagResult)
    (ts m : String)
    (hawait : st.session.awaiting_confirmation = true)
    (_hpend : st.session.pending_suggestions.isSome = true)
    (hrej : (fallback_detection m).is_rejection = true)
    (hnc : (fallback_detection m).is_confirmation = false) :
    (handleMessage st ⟨fallback_detection m, dec, search, ts⟩).1.session.awaiting_confirmation = false ∧
    (handleMessage st ⟨fallback_detection m, dec, search, ts⟩).1.session.pending_suggestions = none ∧
    (handleMessage st ⟨fallback_detection m, dec, search, ts⟩).1.fm = st.fm ∧
    (∀ k, (handleMessage st ⟨fallback_detection m, dec, search, ts⟩).1.fm.get_field k =
      st.fm.get_field k) := by
  have hmsg := handleMessage_awaiting hawait
    (⟨fallback_detection m, dec, search, ts⟩ : TurnInput)
  have hflow := @handleConfirmationFlow_reject st (fallback_detection m)
    (by
      intro hc
      unfold confirmApplies at hc
      rw [hnc] at hc
      exact Bool.false_ne_true hc.1)
    (by
      intro hc
      rw [fallback_not_modification] at hc
      exact Bool.false_ne_true hc.1)
    hrej search
  rw [hmsg]
  dsimp only
  rw [hflow]
  exact ⟨rfl, rfl, rfl, fun k => rfl⟩

/-- Witness for C8 at the pending state with message "no". -/
theorem rejection_clears_flags_witness :
    (handleMessage cexState
        ⟨fallback_detection "no", { action := ActionType.clarify }, mockSearch,
          "t"⟩).1.session.awaiting_confirmation = false ∧
    (handleMessage cexState
        ⟨fallback_detection "no", { action := ActionType.clarify }, mockSearch,
          "t"⟩).1.session.pending_suggestions = none ∧
    (handleMessage cexState
        ⟨fallback_detection "no", { action := ActionType.clarify }, mockSearch,
          "t"⟩).1.fm = cexState.fm ∧
    (∀ k, (handleMessage cexState
        ⟨fallback_detection "no", { action := ActionType.clarify }, mockSearch,
          "t"⟩).1.fm.get_field k = cexState.fm.get_field k) :=
  rejection_clears_flags cexState { action := ActionType.clarify } mockSearch
    "t" "no" rfl rfl (by decide) (by decide)

/-- After an applied confirmation, the Field Tracker of the resulting state
is exactly the tracker with the pending suggestions applied (the RAG
auto-trigger never mutates fields). -/
theorem confirmFlow_fm {st : AgentSt} {det : ConfirmationDetection}
    {search : String → RagResult} {l : List (String × String)}
    (h : confirmApplies det)
    (hpend : st.session.pending_suggestions = some l) :
    (handleConfirmationFlow st det search).1.fm = (st.fm.update_fields l).1 := by
  rw [handleConfirmationFlow_confirm h search]
  dsimp only
  rw [hpend]
  dsimp only [Option.getD]
  split
  · rw [autoTriggerRag_fm]
  · rfl

/-- After an applied confirmation either both confirmation flags are
cleared, or the auto-triggered retrieval re-armed them with a non-empty set
of new suggestions drawn from the search result over not-yet-filled keys. -/
theorem confirmFlow_flags {st : AgentSt} {det : ConfirmationDetection}
    {search : String → RagResult} {l : List (String × String)}
    (h : confirmApplies det)
    (hpend : st.session.pending_suggestions = some l) :
    ((handleConfirmationFlow st det search).1.session.awaiting_confirmation = false ∧
      (handleConfirmationFlow st det search).1.session.pending_suggestions = none) ∨
    ((handleConfirmationFlow st det search).1.session.awaiting_confirmation = true ∧
      (handleConfirmationFlow st det search).1.session.rag_search_performed = true ∧
      ∃ l2, (handleConfirmationFlow st det search).1.session.pending_suggestions =
          some l2 ∧
        l2 ≠ [] ∧
        ∀ kv ∈ l2,
          kv ∈ (search (pyOrStr ((st.fm.update_fields l).1.get_field "Problem")
            "study request")).found_fields ∧
          truthy ((st.fm.update_fields l).1.get_field kv.1) = false) := by
  rw [handleConfirmationFlow_confirm h search]
  dsimp only
  rw [hpend]
  dsimp only [Option.getD]
  split
  · next hfire =>
    rcases autoTriggerRag_cases _ search with heq | hprops
    · rw [heq]
      exact Or.inl ⟨rfl, rfl⟩
    · exact Or.inr hprops
  · exact Or.inl ⟨rfl, rfl⟩

/-- C1 counterexample: from a fresh session awaiting confirmation of
{"Client": "Acme", "Bogus": "x"}, the message "yes" under the rule-based
fallback and the default mock retrieval leaves the non-schema suggestion
unapplied and, because the auto-triggered search returns new suggestions,
ends the turn with awaiting_confirmation true and pending_suggestions
present — contradicting the claim at this input. -/
theorem confirm_yes_claim_cex :
    (handleMessage cexState cexTurnYes).1.fm.get_field "Bogus" = none ∧
    ¬ ((handleMessage cexState cexTurnYes).1.fm.get_field "Bogus" = some "x") ∧
    (handleMessage cexState cexTurnYes).1.session.awaiting_confirmation = true ∧
    (handleMessage cexState cexTurnYes).1.session.pending_suggestions ≠ none := by
  decide

/-- C1 (amended): with awaiting_confirmation set and non-empty pending
suggestions, the message "yes" under the rule-based fallback applies every
pending suggestion whose key belongs to the schema (get returns the
suggested value); awaiting_confirmation and pending_suggestions are
cleared, unless the auto-triggered retrieval search returns new suggestions
for not-yet-filled fields, in which case pending_suggestions holds those
new suggestions and awaiting_confirmation is set again (with
rag_search_performed marked). -/
theorem confirm_yes_applies_schema_suggestions
    (st : AgentSt) (dec : AgentDecision) (search : String → RagResult)
    (ts : String) (l : List (String × String))
    (hWF : st.fm.WF)
    (hawait : st.session.awaiting_confirmation = true)
    (hpend : st.session.pending_suggestions = some l)
    (_hne : l ≠ [])
    (hnd : (l.map (fun kv => kv.1)).Nodup) :
    (∀ kv ∈ l, kv.1 ∈ schemaNames →
      (handleMessage st ⟨fallback_detection "yes", dec, search, ts⟩).1.fm.get_field
        kv.1 = some kv.2) ∧
    (((handleMessage st
          ⟨fallback_detection "yes", dec, search, ts⟩).1.session.awaiting_confirmation =
        false ∧
      (handleMessage st
          ⟨fallback_detection "yes", dec, search, ts⟩).1.session.pending_suggestions =
        none) ∨
     ((handleMessage st
          ⟨fallback_detection "yes", dec, search, ts⟩).1.session.awaiting_confirmation =
        true ∧
      (handleMessage st
          ⟨fallback_detection "yes", dec, search, ts⟩).1.session.rag_search_performed =
        true ∧
      ∃ l2, (handleMessage st
          ⟨fallback_detection "yes", dec, search, ts⟩).1.session.pending_suggestions =
          some l2 ∧
        l2 ≠ [] ∧
        ∀ kv ∈ l2,
          kv ∈ (search (pyOrStr ((st.fm.update_fields l).1.get_field "Problem")
            "study request")).found_fields ∧
          truthy ((st.fm.update_fields l).1.get_field kv.1) = false)) := by
  have hmsg := handleMessage_awaiting hawait
    (⟨fallback_detection "yes", dec, search, ts⟩ : TurnInput)
  constructor
  · intro kv hkv hks
    rw [hmsg]
    dsimp only
    rw [confirmFlow_fm confirmApplies_fallback_yes hpend]
    exact get_field_update_mem hWF hnd hkv hks
  · rw [hmsg]
    dsimp only
    exact confirmFlow_flags confirmApplies_fallback_yes hpend

/-- Witness for C1 (amended) at pending {"Client": "Acme"} in a session
whose auto-trigger is already disabled. -/
theorem confirm_yes_applies_schema_suggestions_witness :
    (∀ kv ∈ [("Client", "Acme")], kv.1 ∈ schemaNames →
      (handleMessage witState
          ⟨fallback_detection "yes", { action := ActionType.clarify }, stubSearch,
            "t"⟩).1.fm.get_field kv.1 = some kv.2) ∧
    (((handleMessage witState
          ⟨fallback_detection "yes", { action := ActionType.clarify }, stubSearch,
            "t"⟩).1.session.awaiting_confirmation = false ∧
      (handleMessage witState
          ⟨fallback_detection "yes", { action := ActionType.clarify }, stubSearch,
            "t"⟩).1.session.pending_suggestions = none) ∨
     ((handleMessage witState
          ⟨fallback_detection "yes", { action := ActionType.clarify }, stubSearch,
            "t"⟩).1.session.awaiting_confirmation = true ∧
      (handleMessage witState
          ⟨fallback_detection "yes", { action := ActionType.clarify }, stubSearch,
            "t"⟩).1.session.rag_search_performed = true ∧
      ∃ l2, (handleMessage witState
          ⟨fallback_detection "yes", { action := ActionType.clarify }, stubSearch,
            "t"⟩).1.session.pending_suggestions = some l2 ∧
        l2 ≠ [] ∧
        ∀ kv ∈ l2,
          kv ∈ (stubSearch (pyOrStr
            ((witState.fm.update_fields [("Client", "Acme")]).1.get_field "Problem")
            "study request")).found_fields ∧
          truthy ((witState.fm.update_fields [("Client", "Acme")]).1.get_field
            kv.1) = false)) :=
  confirm_yes_applies_schema_suggestions witState { action := ActionType.clarify }
    stubSearch "t" [("Client", "Acme")] WF_init rfl rfl (by decide) (by decide)

end StudyBot
